import Mathlib

/-!
Verification development for the club-statistics pipeline (club_stats.py).

The program fetches a club roster, then per-member profile and stats JSON
objects, merges them into one flat record per member, exports the records
as a fixed-column table and optionally derives a per-member rating vector
for a chart.  This file is a shallow embedding of that pipeline:

* parsed JSON values are modelled by the inductive `Json`; a parsed JSON
  object (a Python dict produced by json.loads, hence with unique keys) is
  modelled as an association list `Obj` with first-match lookup;
* Python subscription `d[k]` is `Json.index` / an `olookup` on objects; a
  missing key raises KeyError, subscription of a non-dict by a string key
  raises TypeError, modelled by `PyErr`;
* every network fetch is an oracle value `Except Unit Obj` (transport
  failure or the parsed response), and the three sequential stages of the
  script are explicit recursions over the member list.
-/

/-- A parsed JSON value (a value produced by json.loads). -/
inductive Json where
  | null
  | bool (b : Bool)
  | num (n : Int)
  | str (s : String)
  | arr (elems : List Json)
  | obj (fields : List (String × Json))

/-- A parsed JSON object / Python dict: association list with unique keys,
first-match lookup. -/
abbrev Obj := List (String × Json)

/-- The empty sentinel the script stores for absent data: the empty string. -/
def sentinel : Json := Json.str ""

/-- The Python exceptions relevant to the script: KeyError from a missing
dict key, TypeError from subscripting a non-dict with a string key,
ValueError from int() on a non-numeric string. -/
inductive PyErr where
  | keyError
  | typeError
  | valueError
deriving DecidableEq

/-- Dict lookup, first match (keys of a parsed JSON object are unique). -/
def olookup (k : String) : Obj → Option Json
  | [] => none
  | (k', v) :: rest => if k' = k then some v else olookup k rest

/-- Python subscription v[k] with a string key: on a dict it is a keyed
lookup raising KeyError when the key is missing; on any non-dict value it
raises TypeError. -/
def Json.index : Json → String → Except PyErr Json
  | .obj fs, k =>
    match olookup k fs with
    | some v => .ok v
    | none => .error .keyError
  | _, _ => .error .typeError

/-- Chained subscription v[k1][k2]...: evaluates left to right, the first
exception propagates. -/
def indexChain : Json → List String → Except PyErr Json
  | v, [] => .ok v
  | v, k :: rest =>
    match Json.index v k with
    | .ok v' => indexChain v' rest
    | .error e => .error e

/-- player_data[k1][k2]...[kn] where player_data is the parsed top-level
response object: top-level keyed lookup (KeyError when missing), then
chained subscription. -/
def extractNested (fs : Obj) (k : String) (path : List String) : Except PyErr Json :=
  match olookup k fs with
  | some v => indexChain v path
  | none => .error .keyError

/-- A try/except KeyError block around an extraction: KeyError is replaced
by the empty sentinel, any other exception propagates unhandled. -/
def tryKeyErr : Except PyErr Json → Except PyErr Json
  | .error .keyError => .ok sentinel
  | r => r

/-- Python equality test (v == 0) for a parsed JSON value: true for the
integer 0 and for false (bool is an int subclass in Python), false
otherwise. -/
def pyEqZero : Json → Bool
  | .num 0 => true
  | .bool false => true
  | _ => false

/-- Dict assignment d[k] = v: replaces the value of an existing key in
place, appends a new binding at the end otherwise. -/
def setKey : Obj → String → Json → Obj
  | [], k, v => [(k, v)]
  | (k', w) :: rest, k, v =>
    if k' = k then (k, v) :: rest else (k', w) :: setKey rest k v

/-! ## String comparison

Python compares strings lexicographically by code point, a shorter string
preceding its extensions.  Lean kernel reduction gets stuck on the library
String order, so the comparison is spelled out on the character lists. -/

/-- Lexicographic less-or-equal on character lists, by code point. -/
def lexLeb : List Char → List Char → Bool
  | [], _ => true
  | _ :: _, [] => false
  | a :: as, b :: bs => if a < b then true else if b < a then false else lexLeb as bs

/-- Python string comparison s1 <= s2. -/
def strLeb (a b : String) : Bool := lexLeb a.data b.data

/-- The ordering relation of the username sort. -/
def strLe (a b : String) : Prop := strLeb a b = true

instance : DecidableRel strLe := fun a b => inferInstanceAs (Decidable (strLeb a b = true))

/-! ## Directory loader (lines 36-55): roster to sorted username list -/

/-- The member objects of all roster buckets, concatenated in bucket order
(the two nested for-loops over club_members.values()). -/
def bucketMembers : List (String × List Obj) → List Obj
  | [] => []
  | (_, ms) :: rest => ms ++ bucketMembers rest

/-- The username read from each member object of each bucket, in loop
order.  The script reads element["username"] and later sorts by these
values; a member object without a string username makes the run die with
an uncaught exception, modelled as none. -/
def extractUsernames (roster : List (String × List Obj)) : Option (List String) :=
  (bucketMembers roster).mapM fun e =>
    match olookup "username" e with
    | some (Json.str s) => some s
    | _ => none

/-- The member list after the roster stage: one entry per member object
occurrence (the script appends, it does not key by username), sorted
ascending by username (members.sort, a stable sort on the string key). -/
def loadRoster (roster : List (String × List Obj)) : Option (List String) :=
  (extractUsernames roster).map (List.insertionSort strLe)

/-! ## Profile enricher (lines 65-82) -/

/-- One member record after the profile loop: the dict built with
username, then name, location, status, each taken from the profile
response when the key is present and the empty sentinel otherwise. -/
def enrichProfile (u : String) (pd : Obj) : Obj :=
  [("username", Json.str u),
   ("name", (olookup "name" pd).getD sentinel),
   ("location", (olookup "location" pd).getD sentinel),
   ("status", (olookup "status" pd).getD sentinel)]

/-! ## Statistics enricher (lines 85-134) -/

/-- The rating types of the ratings table and the sub-key selecting the
reported rating for each (lines 85-93). -/
def rating_lists : List (String × String) :=
  [("chess_daily", "last"),
   ("chess_rapid", "last"),
   ("chess_blitz", "last"),
   ("chess_bullet", "last"),
   ("chess960_daily", "last"),
   ("tactics", "highest"),
   ("lessons", "highest")]

/-- member["fide"]: the top-level fide value when present, the empty
sentinel when absent, then normalised to the sentinel when it compares
equal to 0 (lines 112-115). -/
def fideField (sd : Obj) : Json :=
  let v := (olookup "fide" sd).getD sentinel
  if pyEqZero v then sentinel else v

/-- One iteration of the rating loop (lines 126-134):
player_data[rating_type][selector]["rating"] under try/except KeyError. -/
def ratingField (sd : Obj) (t sel : String) : Except PyErr Json :=
  tryKeyErr (extractNested sd t [sel, "rating"])

/-- The rating loop over rating_lists, in order; an unhandled exception in
one iteration aborts the rest. -/
def ratingFields : List (String × String) → Obj → Except PyErr Obj
  | [], _ => .ok []
  | (t, sel) :: rest, sd =>
    match ratingField sd t sel with
    | .error e => .error e
    | .ok v =>
      match ratingFields rest sd with
      | .error e => .error e
      | .ok vs => .ok ((t, v) :: vs)

/-- The nested paths read by the statistics enricher: puzzle_rush.best.score
and, for each configured rating type, type.selector.rating. -/
def statPaths : List (String × List String) :=
  ("puzzle_rush", ["best", "score"]) ::
    rating_lists.map fun ts => (ts.1, [ts.2, "rating"])

/-- The value the statistics enricher computes for one nested-path field:
the chained extraction with KeyError replaced by the empty sentinel. -/
def statFieldValue (sd : Obj) (p : String × List String) : Except PyErr Json :=
  tryKeyErr (extractNested sd p.1 p.2)

/-- The statistics enricher applied to one member record m with stats
response sd (lines 112-134): assigns fide, then puzzle_rush, then the
seven ratings; KeyError along a path stores the sentinel, any other
exception is unhandled and aborts. -/
def enrichStats (sd : Obj) (m : Obj) : Except PyErr Obj :=
  match tryKeyErr (extractNested sd "puzzle_rush" ["best", "score"]) with
  | .error e => .error e
  | .ok pr =>
    match ratingFields rating_lists sd with
    | .error e => .error e
    | .ok rs => .ok (m ++ [("fide", fideField sd), ("puzzle_rush", pr)] ++ rs)

/-! ## The pipeline over fetch oracles -/

/-- The three fetches as oracles: each call either fails at transport
level (the bare except around urlopen fires, Unit) or yields the parsed
response object. -/
structure FetchOracle where
  roster : Except Unit (List (String × List Obj))
  profile : String → Except Unit Obj
  stats : String → Except Unit Obj

/-- How a run dies: a transport failure printed and exited with status 1,
or an unhandled Python exception. -/
inductive RunError where
  | fetchError
  | pyError (e : PyErr)
deriving DecidableEq

/-- The profile loop (lines 65-82): for each member in order, fetch the
profile and build the record; a transport failure aborts. -/
def profileStage (fetch : String → Except Unit Obj) : List String → Except RunError (List Obj)
  | [] => .ok []
  | u :: rest =>
    match fetch u with
    | .error _ => .error .fetchError
    | .ok pd =>
      match profileStage fetch rest with
      | .error e => .error e
      | .ok ms => .ok (enrichProfile u pd :: ms)

/-- The stats loop (lines 99-134): for each record in order, read its
username, fetch the stats and enrich; a transport failure or an unhandled
exception aborts.  member["username"] is always a string by construction;
anything else would itself be an uncaught exception. -/
def statsStage (fetch : String → Except Unit Obj) : List Obj → Except RunError (List Obj)
  | [] => .ok []
  | m :: rest =>
    match olookup "username" m with
    | some (Json.str u) =>
      (match fetch u with
       | .error _ => .error .fetchError
       | .ok sd =>
         match enrichStats sd m with
         | .error e => .error (.pyError e)
         | .ok m' =>
           match statsStage fetch rest with
           | .error e => .error e
           | .ok ms => .ok (m' :: ms))
    | _ => .error (.pyError .keyError)

/-- The whole run up to the export: roster fetch, username extraction and
sort, profile loop, stats loop.  A none from loadRoster is the uncaught
exception raised while reading element["username"]. -/
def runPipeline (o : FetchOracle) : Except RunError (List Obj) :=
  match o.roster with
  | .error _ => .error .fetchError
  | .ok roster =>
    match loadRoster roster with
    | none => .error (.pyError .keyError)
    | some names =>
      match profileStage o.profile names with
      | .error e => .error e
      | .ok recs => statsStage o.stats recs

/-- The sequence of member fetches one enrichment loop issues: one call
per member in list order, stopping right after the first failure (the
script exits inside the loop body). -/
def stageCalls (fetch : String → Except Unit Obj) : List String → List String
  | [] => []
  | u :: rest =>
    match fetch u with
    | .error _ => [u]
    | .ok _ => u :: stageCalls fetch rest

/-! ## Export (lines 136-175) and chart (lines 184-209) -/

/-- The fixed column order of the exported table. -/
def export_columns : List String :=
  ["username", "name", "fide", "chess_daily", "chess_rapid", "chess_blitz",
   "chess_bullet", "chess960_daily", "tactics", "lessons", "puzzle_rush",
   "location", "status"]

/-- The exported rows: one row per record, in record order, the cells in
the fixed column order (a column missing from a record would be an empty
cell, rendered here as null). -/
def exportRows (recs : List Obj) : List (List Json) :=
  recs.map fun m => export_columns.map fun c => (olookup c m).getD Json.null

/-- The six chart categories, in chart order (lines 184-191). -/
def rating_types : List String :=
  ["chess_daily", "chess_rapid", "chess_blitz", "chess_bullet",
   "chess960_daily", "tactics"]

/-- Python int() on a stored field value: an int is itself, a bool is 0 or
1, a numeric string parses, anything else raises. -/
def pyInt : Json → Except PyErr Int
  | .num n => .ok n
  | .bool b => .ok (if b then 1 else 0)
  | .str s =>
    match s.toInt? with
    | some n => .ok n
    | none => .error .valueError
  | _ => .error .typeError

/-- One chart cell: int(member[type]) if member[type] != "" else 800
(line 209), given the looked-up value. -/
def chartValue : Json → Except PyErr Int
  | .str "" => .ok 800
  | v => pyInt v

/-- The chart vector build over a list of categories: member[type] is
looked up (KeyError if the field were absent) and converted. -/
def chartEntries : List String → Obj → Except PyErr (List Int)
  | [], _ => .ok []
  | t :: rest, m =>
    match olookup t m with
    | none => .error .keyError
    | some v =>
      match chartValue v with
      | .error e => .error e
      | .ok n =>
        match chartEntries rest m with
        | .error e => .error e
        | .ok ns => .ok (n :: ns)

/-- The six-element vector handed to the chart renderer for one member
record (lines 202-209). -/
def chartVector (m : Obj) : Except PyErr (List Int) :=
  chartEntries rating_types m

/-! ## Totality precondition for the nested extractions -/

/-- Every path segment that is present is a mapping: walking the path,
a missing key is fine (KeyError is handled) but a present value to be
subscripted further must be an object. -/
def segsAreMaps : Json → List String → Bool
  | _, [] => true
  | .obj fs, k :: rest =>
    (match olookup k fs with
     | none => true
     | some v => segsAreMaps v rest)
  | _, _ :: _ => false

/-- The totality precondition for one nested path rooted at key k of the
response: the root value, when present, is subscriptable all along. -/
def pathTotal (sd : Obj) (k : String) (path : List String) : Bool :=
  match olookup k sd with
  | none => true
  | some v => segsAreMaps v path

/-! ## Properties of the string comparison -/

theorem lexLeb_total : ∀ as bs, lexLeb as bs = true ∨ lexLeb bs as = true := by
  intro as
  induction as with
  | nil => intro bs; left; rfl
  | cons a as ih =>
    intro bs
    cases bs with
    | nil => right; rfl
    | cons b bs' =>
      rcases lt_trichotomy a b with h | h | h
      · left; simp [lexLeb, h]
      · subst h
        rcases ih bs' with h2 | h2
        · left; simp [lexLeb, lt_irrefl, h2]
        · right; simp [lexLeb, lt_irrefl, h2]
      · right; simp [lexLeb, h]

theorem lexLeb_trans :
    ∀ as bs cs, lexLeb as bs = true → lexLeb bs cs = true → lexLeb as cs = true := by
  intro as
  induction as with
  | nil => intro bs cs _ _; rfl
  | cons a as ih =>
    intro bs cs h1 h2
    cases bs with
    | nil => simp [lexLeb] at h1
    | cons b bs' =>
      cases cs with
      | nil => simp [lexLeb] at h2
      | cons c cs' =>
        rcases lt_trichotomy a b with hab | hab | hab
        · rcases lt_trichotomy b c with hbc | hbc | hbc
          · simp [lexLeb, lt_trans hab hbc]
          · subst hbc; simp [lexLeb, hab]
          · simp [lexLeb, hbc, lt_asymm hbc] at h2
        · subst hab
          rcases lt_trichotomy a c with hac | hac | hac
          · simp [lexLeb, hac]
          · subst hac
            simp [lexLeb, lt_irrefl] at h1 h2 ⊢
            exact ih _ _ h1 h2
          · simp [lexLeb, hac, lt_asymm hac] at h2
        · simp [lexLeb, hab, lt_asymm hab] at h1

theorem lexLeb_antisymm :
    ∀ as bs, lexLeb as bs = true → lexLeb bs as = true → as = bs := by
  intro as
  induction as with
  | nil =>
    intro bs h1 h2
    cases bs with
    | nil => rfl
    | cons b bs' => simp [lexLeb] at h2
  | cons a as ih =>
    intro bs h1 h2
    cases bs with
    | nil => simp [lexLeb] at h1
    | cons b bs' =>
      rcases lt_trichotomy a b with hab | hab | hab
      · simp [lexLeb, hab, lt_asymm hab] at h2
      · subst hab
        simp [lexLeb, lt_irrefl] at h1 h2
        rw [ih _ h1 h2]
      · simp [lexLeb, hab, lt_asymm hab] at h1

instance : IsTotal String strLe := ⟨fun a b => lexLeb_total a.data b.data⟩

instance : IsTrans String strLe := ⟨fun a b c => lexLeb_trans a.data b.data c.data⟩

instance : IsAntisymm String strLe :=
  ⟨fun a b h1 h2 => String.ext (lexLeb_antisymm a.data b.data h1 h2)⟩

/-! ## Lookup and assignment lemmas -/

theorem olookup_append_of_some {k : String} {l1 : Obj} (l2 : Obj) {v : Json}
    (h : olookup k l1 = some v) : olookup k (l1 ++ l2) = some v := by
  induction l1 with
  | nil => simp [olookup] at h
  | cons kv rest ih =>
    obtain ⟨k', w⟩ := kv
    by_cases hk : k' = k
    · simp [olookup, hk] at h ⊢; exact h
    · simp [olookup, hk] at h ⊢; exact ih h

theorem olookup_append_of_none {k : String} {l1 : Obj} (l2 : Obj)
    (h : olookup k l1 = none) : olookup k (l1 ++ l2) = olookup k l2 := by
  induction l1 with
  | nil => rfl
  | cons kv rest ih =>
    obtain ⟨k', w⟩ := kv
    by_cases hk : k' = k
    · simp [olookup, hk] at h
    · simp [olookup, hk] at h ⊢; exact ih h

theorem olookup_setKey_self (fs : Obj) (k : String) (v : Json) :
    olookup k (setKey fs k v) = some v := by
  induction fs with
  | nil => simp [setKey, olookup]
  | cons kv rest ih =>
    obtain ⟨k', w⟩ := kv
    by_cases hk : k' = k
    · simp [setKey, hk, olookup]
    · simp [setKey, hk, olookup, ih]

theorem olookup_setKey_ne {k' k : String} (fs : Obj) (v : Json) (h : k' ≠ k) :
    olookup k' (setKey fs k v) = olookup k' fs := by
  induction fs with
  | nil => simp [setKey, olookup, Ne.symm h]
  | cons kv rest ih =>
    obtain ⟨k0, w⟩ := kv
    by_cases hk : k0 = k
    · subst hk
      simp [setKey, olookup, Ne.symm h]
    · simp [setKey, hk, olookup, ih]

theorem extractNested_congr {sd sd' : Obj} {t : String} (path : List String)
    (h : olookup t sd' = olookup t sd) :
    extractNested sd' t path = extractNested sd t path := by
  unfold extractNested
  rw [h]

theorem tryKeyErr_ok {e : Except PyErr Json} {v : Json} (h : tryKeyErr e = .ok v) :
    e = .ok v ∨ (e = .error .keyError ∧ v = sentinel) := by
  cases e with
  | ok w => left; simpa [tryKeyErr] using h
  | error pe =>
    cases pe with
    | keyError => right; simp [tryKeyErr] at h; exact ⟨rfl, h.symm⟩
    | typeError => simp [tryKeyErr] at h
    | valueError => simp [tryKeyErr] at h

/-! ## Shape of the stats enrichment -/

theorem enrichStats_shape {sd m m' : Obj} (h : enrichStats sd m = .ok m') :
    ∃ pr rs,
      tryKeyErr (extractNested sd "puzzle_rush" ["best", "score"]) = .ok pr ∧
      ratingFields rating_lists sd = .ok rs ∧
      m' = m ++ [("fide", fideField sd), ("puzzle_rush", pr)] ++ rs := by
  unfold enrichStats at h
  cases h1 : tryKeyErr (extractNested sd "puzzle_rush" ["best", "score"]) with
  | error e => rw [h1] at h; exact absurd h (by simp)
  | ok pr =>
    rw [h1] at h
    cases h2 : ratingFields rating_lists sd with
    | error e => rw [h2] at h; exact absurd h (by simp)
    | ok rs =>
      rw [h2] at h
      simp only [Except.ok.injEq] at h
      exact ⟨pr, rs, rfl, rfl, h.symm⟩

theorem ratingFields_mem_eq :
    ∀ (L : List (String × String)) (sd : Obj) (rs : Obj),
      ratingFields L sd = .ok rs →
      ∀ t sel v, (t, sel) ∈ L → ratingField sd t sel = .ok v → (t, v) ∈ rs := by
  intro L
  induction L with
  | nil => intro sd rs h t sel v hm; simp at hm
  | cons ts rest ih =>
    intro sd rs h t sel v hm hv
    obtain ⟨t0, s0⟩ := ts
    unfold ratingFields at h
    cases h1 : ratingField sd t0 s0 with
    | error e => rw [h1] at h; exact absurd h (by simp)
    | ok w =>
      rw [h1] at h
      cases h2 : ratingFields rest sd with
      | error e => rw [h2] at h; exact absurd h (by simp)
      | ok ws =>
        rw [h2] at h
        simp only [Except.ok.injEq] at h
        subst h
        rcases List.mem_cons.mp hm with hh | hh
        · obtain ⟨he1, he2⟩ := Prod.mk.injEq .. ▸ hh
          · subst he1; subst he2
            rw [h1] at hv
            simp only [Except.ok.injEq] at hv
            subst hv
            exact List.mem_cons_self _ _
        · exact List.mem_cons_of_mem _ (ih sd ws h2 t sel v hh hv)

theorem ratingFields_val_mem :
    ∀ (L : List (String × String)) (sd : Obj) (rs : Obj),
      ratingFields L sd = .ok rs →
      ∀ kv, kv ∈ rs → ∃ sel, (kv.1, sel) ∈ L ∧ ratingField sd kv.1 sel = .ok kv.2 := by
  intro L
  induction L with
  | nil =>
    intro sd rs h kv hm
    unfold ratingFields at h
    simp only [Except.ok.injEq] at h
    subst h; simp at hm
  | cons ts rest ih =>
    intro sd rs h kv hm
    obtain ⟨t0, s0⟩ := ts
    unfold ratingFields at h
    cases h1 : ratingField sd t0 s0 with
    | error e => rw [h1] at h; exact absurd h (by simp)
    | ok w =>
      rw [h1] at h
      cases h2 : ratingFields rest sd with
      | error e => rw [h2] at h; exact absurd h (by simp)
      | ok ws =>
        rw [h2] at h
        simp only [Except.ok.injEq] at h
        subst h
        rcases List.mem_cons.mp hm with hh | hh
        · subst hh; exact ⟨s0, List.mem_cons_self _ _, h1⟩
        · obtain ⟨sel, hs1, hs2⟩ := ih sd ws h2 kv hh
          exact ⟨sel, List.mem_cons_of_mem _ hs1, hs2⟩

/-! ## Stage lemmas -/

theorem enrichProfile_username (u : String) (pd : Obj) :
    olookup "username" (enrichProfile u pd) = some (Json.str u) := rfl

theorem profileStage_usernames :
    ∀ (f : String → Except Unit Obj) (names : List String) (recs : List Obj),
      profileStage f names = .ok recs →
      recs.map (olookup "username") = names.map (fun u => some (Json.str u)) := by
  intro f names
  induction names with
  | nil =>
    intro recs h
    unfold profileStage at h
    simp only [Except.ok.injEq] at h
    subst h; rfl
  | cons u rest ih =>
    intro recs h
    unfold profileStage at h
    cases h1 : f u with
    | error e => rw [h1] at h; exact absurd h (by simp)
    | ok pd =>
      rw [h1] at h
      cases h2 : profileStage f rest with
      | error e => rw [h2] at h; exact absurd h (by simp)
      | ok ms =>
        rw [h2] at h
        simp only [Except.ok.injEq] at h
        subst h
        simp only [List.map_cons, enrichProfile_username]
        rw [ih ms h2]

theorem profileStage_ok :
    ∀ (f : String → Except Unit Obj) (names : List String),
      (∀ u ∈ names, ∃ pd, f u = .ok pd) →
      ∃ recs, profileStage f names = .ok recs := by
  intro f names
  induction names with
  | nil => intro _; exact ⟨[], rfl⟩
  | cons u rest ih =>
    intro h
    obtain ⟨pd, hpd⟩ := h u (List.mem_cons_self _ _)
    obtain ⟨ms, hms⟩ := ih fun v hv => h v (List.mem_cons_of_mem _ hv)
    refine ⟨enrichProfile u pd :: ms, ?_⟩
    unfold profileStage
    rw [hpd, hms]

theorem profileStage_fetch_ok :
    ∀ (f : String → Except Unit Obj) (names : List String) (recs : List Obj),
      profileStage f names = .ok recs →
      ∀ u ∈ names, ∃ pd, f u = .ok pd := by
  intro f names
  induction names with
  | nil => intro recs _ u hu; simp at hu
  | cons u0 rest ih =>
    intro recs h u hu
    unfold profileStage at h
    cases h1 : f u0 with
    | error e => rw [h1] at h; exact absurd h (by simp)
    | ok pd =>
      rw [h1] at h
      cases h2 : profileStage f rest with
      | error e => rw [h2] at h; exact absurd h (by simp)
      | ok ms =>
        rcases List.mem_cons.mp hu with hh | hh
        · subst hh; exact ⟨pd, h1⟩
        · exact ih ms h2 u hh

theorem statsStage_fetch_ok :
    ∀ (f : String → Except Unit Obj) (recs out : List Obj),
      statsStage f recs = .ok out →
      ∀ m ∈ recs, ∀ u, olookup "username" m = some (Json.str u) → ∃ sd, f u = .ok sd := by
  intro f recs
  induction recs with
  | nil => intro out _ m hm; simp at hm
  | cons m0 rest ih =>
    intro out h m hm u hu
    unfold statsStage at h
    rcases List.mem_cons.mp hm with hh | hh
    · subst hh
      simp only [hu] at h
      cases h1 : f u with
      | error e => simp [h1] at h
      | ok sd => exact ⟨sd, rfl⟩
    · cases h0 : olookup "username" m0 with
      | none => simp [h0] at h
      | some v =>
        simp only [h0] at h
        cases v with
        | str u0 =>
          cases h1 : f u0 with
          | error e => simp [h1] at h
          | ok sd =>
            simp only [h1] at h
            cases h2 : enrichStats sd m0 with
            | error e => simp [h2] at h
            | ok m0' =>
              simp only [h2] at h
              cases h3 : statsStage f rest with
              | error e => simp [h3] at h
              | ok ms => exact ih ms h3 m hh u hu
        | null => simp at h
        | bool b => simp at h
        | num n => simp at h
        | arr es => simp at h
        | obj fsx => simp at h

theorem statsStage_usernames :
    ∀ (f : String → Except Unit Obj) (recs out : List Obj),
      statsStage f recs = .ok out →
      out.map (olookup "username") = recs.map (olookup "username") := by
  intro f recs
  induction recs with
  | nil =>
    intro out h
    unfold statsStage at h
    simp only [Except.ok.injEq] at h
    subst h; rfl
  | cons m0 rest ih =>
    intro out h
    unfold statsStage at h
    cases h0 : olookup "username" m0 with
    | none => simp [h0] at h
    | some v =>
      simp only [h0] at h
      cases v with
      | str u0 =>
        cases h1 : f u0 with
        | error e => simp [h1] at h
        | ok sd =>
          simp only [h1] at h
          cases h2 : enrichStats sd m0 with
          | error e => simp [h2] at h
          | ok m0' =>
            simp only [h2] at h
            cases h3 : statsStage f rest with
            | error e => simp [h3] at h
            | ok ms =>
              simp only [h3, Except.ok.injEq] at h
              subst h
              obtain ⟨pr, rs, _, _, hshape⟩ := enrichStats_shape h2
              subst hshape
              simp only [List.map_cons]
              rw [ih ms h3, List.append_assoc,
                olookup_append_of_some _ h0, h0]
      | null => simp at h
      | bool b => simp at h
      | num n => simp at h
      | arr es => simp at h
      | obj fsx => simp at h

theorem runPipeline_ok {o : FetchOracle} {recs : List Obj}
    (h : runPipeline o = .ok recs) :
    ∃ roster names recs0,
      o.roster = .ok roster ∧ loadRoster roster = some names ∧
      profileStage o.profile names = .ok recs0 ∧
      statsStage o.stats recs0 = .ok recs := by
  unfold runPipeline at h
  cases h0 : o.roster with
  | error e => simp [h0] at h
  | ok roster =>
    simp only [h0] at h
    cases h1 : loadRoster roster with
    | none => simp [h1] at h
    | some names =>
      simp only [h1] at h
      cases h2 : profileStage o.profile names with
      | error e => simp [h2] at h
      | ok recs0 =>
        simp only [h2] at h
        exact ⟨roster, names, recs0, rfl, h1, h2, h⟩

/-! ## Totality of the nested extraction under the mapping precondition -/

theorem indexChain_no_typeError :
    ∀ (path : List String) (v : Json), segsAreMaps v path = true →
      (∃ w, indexChain v path = .ok w) ∨ indexChain v path = .error .keyError := by
  intro path
  induction path with
  | nil => intro v _; exact Or.inl ⟨v, rfl⟩
  | cons k rest ih =>
    intro v h
    cases v with
    | obj fs =>
      cases h0 : olookup k fs with
      | none =>
        right
        simp [indexChain, Json.index, h0]
      | some w =>
        unfold segsAreMaps at h
        simp only [h0] at h
        have hred : indexChain (Json.obj fs) (k :: rest) = indexChain w rest := by
          simp [indexChain, Json.index, h0]
        rw [hred]
        exact ih w h
    | null => simp [segsAreMaps] at h
    | bool b => simp [segsAreMaps] at h
    | num n => simp [segsAreMaps] at h
    | str s => simp [segsAreMaps] at h
    | arr es => simp [segsAreMaps] at h

theorem statFieldValue_total {sd : Obj} {k : String} {path : List String}
    (h : pathTotal sd k path = true) :
    ∃ v, tryKeyErr (extractNested sd k path) = .ok v := by
  unfold pathTotal at h
  cases h0 : olookup k sd with
  | none => exact ⟨sentinel, by simp [extractNested, h0, tryKeyErr]⟩
  | some w =>
    simp only [h0] at h
    rcases indexChain_no_typeError path w h with ⟨x, hx⟩ | hx
    · exact ⟨x, by simp [extractNested, h0, hx, tryKeyErr]⟩
    · exact ⟨sentinel, by simp [extractNested, h0, hx, tryKeyErr]⟩

theorem ratingFields_total :
    ∀ (L : List (String × String)) (sd : Obj),
      (∀ ts ∈ L, pathTotal sd ts.1 [ts.2, "rating"] = true) →
      ∃ rs, ratingFields L sd = .ok rs := by
  intro L
  induction L with
  | nil => intro sd _; exact ⟨[], rfl⟩
  | cons ts rest ih =>
    intro sd h
    obtain ⟨t0, s0⟩ := ts
    obtain ⟨v, hv⟩ := statFieldValue_total (h (t0, s0) (List.mem_cons_self _ _))
    obtain ⟨rs, hrs⟩ := ih sd fun x hx => h x (List.mem_cons_of_mem _ hx)
    refine ⟨(t0, v) :: rs, ?_⟩
    unfold ratingFields
    rw [show ratingField sd t0 s0 = .ok v from hv, hrs]

/-! ## Claim C1 -/

/-- The failing roster for C1: the same username listed in two
membership-duration buckets. -/
def rosterC1 : List (String × List Obj) :=
  [("weekly", [[("username", Json.str "alice")]]),
   ("all_time", [[("username", Json.str "alice")]])]

/-- C1: the claim states that duplicates across buckets collapse to
exactly one identity per distinct username.  The code does not collapse
them: a roster listing alice in two buckets produces the identity
sequence [alice, alice] — two identities, hence two member records, for
one distinct username. -/
theorem spec_C1 :
    loadRoster rosterC1 = some ["alice", "alice"] ∧
    ¬ (["alice", "alice"] : List String).Nodup := by
  exact ⟨rfl, by decide⟩

theorem enrichProfile_lookup_fide (u : String) (pd : Obj) :
    olookup "fide" (enrichProfile u pd) = none := rfl

/-! ## Claim C3 -/

/-- C3: the statistics enricher stores the empty sentinel for fide both
when the top-level fide key is absent and when its value equals zero, and
the two cases produce identical output for that field; the value stored in
the record under the fide key is the sentinel. -/
theorem spec_C3 (sd sd' : Obj)
    (h1 : olookup "fide" sd = some (Json.num 0))
    (h0 : olookup "fide" sd' = none) :
    fideField sd = sentinel ∧ fideField sd' = sentinel ∧
    fideField sd = fideField sd' ∧
    ∀ u pd m', enrichStats sd (enrichProfile u pd) = .ok m' →
      olookup "fide" m' = some sentinel := by
  have hz : fideField sd = sentinel := by simp [fideField, h1, pyEqZero]
  have ha : fideField sd' = sentinel := by simp [fideField, h0, pyEqZero, sentinel]
  refine ⟨hz, ha, by rw [hz, ha], ?_⟩
  intro u pd m' hm
  obtain ⟨pr, rs, _, _, hshape⟩ := enrichStats_shape hm
  subst hshape
  rw [List.append_assoc,
    olookup_append_of_none _ (enrichProfile_lookup_fide u pd),
    olookup_append_of_some rs
      (show olookup "fide" [("fide", fideField sd), ("puzzle_rush", pr)] =
        some (fideField sd) from rfl), hz]

/-- Witness for C3 at the concrete responses: fide equal to 0, and fide
fully absent. -/
theorem spec_C3_witness :
    fideField [("fide", Json.num 0)] = sentinel ∧ fideField ([] : Obj) = sentinel ∧
    fideField [("fide", Json.num 0)] = fideField ([] : Obj) ∧
    ∀ u pd m', enrichStats [("fide", Json.num 0)] (enrichProfile u pd) = .ok m' →
      olookup "fide" m' = some sentinel :=
  spec_C3 [("fide", Json.num 0)] [] rfl rfl

/-! ## Claim C4 -/

theorem statPaths_cases {p : String × List String} (hp : p ∈ statPaths) :
    p = ("puzzle_rush", ["best", "score"]) ∨
    ∃ t sel, (t, sel) ∈ rating_lists ∧ p = (t, [sel, "rating"]) := by
  unfold statPaths at hp
  rcases List.mem_cons.mp hp with h | h
  · exact Or.inl h
  · obtain ⟨ts, hts, he⟩ := List.mem_map.mp h
    exact Or.inr ⟨ts.1, ts.2, by simpa using hts, he.symm⟩

theorem statPaths_root_ne_fide : ∀ p ∈ statPaths, p.1 ≠ "fide" := by decide

/-- C4: for each of the eight nested-path fields, a missing key segment
along the path makes the enricher store the empty sentinel for exactly
that field: the field's value is the sentinel, the sentinel binding for
that field is in the enriched record, and every other stat field (fide
and the other nested-path fields) computes the same value whatever is
stored under this field's root key — in particular the same value as when
the path is fully present. -/
theorem spec_C4 (sd : Obj) (p : String × List String) (hp : p ∈ statPaths)
    (hmiss : extractNested sd p.1 p.2 = .error .keyError) :
    statFieldValue sd p = .ok sentinel ∧
    (∀ m m', enrichStats sd m = .ok m' → (p.1, sentinel) ∈ m') ∧
    (∀ v : Json,
      fideField (setKey sd p.1 v) = fideField sd ∧
      ∀ q ∈ statPaths, q.1 ≠ p.1 →
        statFieldValue (setKey sd p.1 v) q = statFieldValue sd q) := by
  have h1 : statFieldValue sd p = .ok sentinel := by
    simp [statFieldValue, hmiss, tryKeyErr]
  refine ⟨h1, ?_, ?_⟩
  · intro m m' hm
    obtain ⟨pr, rs, hpz, hrs, hshape⟩ := enrichStats_shape hm
    subst hshape
    rcases statPaths_cases hp with hc | ⟨t, sel, htl, hc⟩
    · have hpr : pr = sentinel := by
        rw [hc] at h1
        unfold statFieldValue at h1
        simp only at h1
        rw [hpz] at h1
        exact (Except.ok.injEq .. ▸ h1 :)
      subst hpr
      rw [hc]
      exact List.mem_append_left rs (List.mem_append_right m (by simp))
    · have hrf : ratingField sd t sel = .ok sentinel := by
        rw [hc] at h1
        exact h1
      rw [hc]
      exact List.mem_append_right _
        (ratingFields_mem_eq rating_lists sd rs hrs t sel sentinel htl hrf)
  · intro v
    constructor
    · unfold fideField
      rw [olookup_setKey_ne sd v (Ne.symm (statPaths_root_ne_fide p hp))]
    · intro q hq hne
      unfold statFieldValue
      rw [extractNested_congr q.2 (olookup_setKey_ne sd v hne)]

/-- The stats response of the C4 witness: puzzle_rush is present but its
best sub-key is missing. -/
def sdC4 : Obj := [("puzzle_rush", Json.obj [("daily", Json.num 3)])]

/-- Witness for C4 at a concrete response whose puzzle_rush.best segment
is absent. -/
theorem spec_C4_witness :
    statFieldValue sdC4 ("puzzle_rush", ["best", "score"]) = .ok sentinel ∧
    (∀ m m', enrichStats sdC4 m = .ok m' → ("puzzle_rush", sentinel) ∈ m') ∧
    (∀ v : Json,
      fideField (setKey sdC4 "puzzle_rush" v) = fideField sdC4 ∧
      ∀ q ∈ statPaths, q.1 ≠ "puzzle_rush" →
        statFieldValue (setKey sdC4 "puzzle_rush" v) q = statFieldValue sdC4 q) :=
  spec_C4 sdC4 ("puzzle_rush", ["best", "score"]) (by decide) rfl

/-! ## Claim C5 -/

theorem ratingField_setKey_other (sd : Obj) (t sel other : String) (o : Obj) (hv : Json)
    (ht : olookup t sd = some (Json.obj o)) (hne : other ≠ sel) :
    ratingField (setKey sd t (Json.obj (setKey o other hv))) t sel =
      ratingField sd t sel := by
  unfold ratingField extractNested
  rw [olookup_setKey_self, ht]
  have hsel : olookup sel (setKey o other hv) = olookup sel o :=
    olookup_setKey_ne o hv (Ne.symm hne)
  simp only [indexChain, Json.index, hsel]

/-- C5: for a game type configured with the "last" selector, replacing
only the value stored under its "highest" sub-key leaves the stored
rating value unchanged; symmetrically, for a "highest"-selector game
type, replacing only the "last" sub-key value leaves it unchanged. -/
theorem spec_C5 (sd : Obj) (t : String) (o : Obj) (hv : Json)
    (ht : olookup t sd = some (Json.obj o)) :
    ((t, "last") ∈ rating_lists →
      ratingField (setKey sd t (Json.obj (setKey o "highest" hv))) t "last" =
        ratingField sd t "last") ∧
    ((t, "highest") ∈ rating_lists →
      ratingField (setKey sd t (Json.obj (setKey o "last" hv))) t "highest" =
        ratingField sd t "highest") :=
  ⟨fun _ => ratingField_setKey_other sd t "last" "highest" o hv ht (by decide),
   fun _ => ratingField_setKey_other sd t "highest" "last" o hv ht (by decide)⟩

/-- The game-type sub-object of the C5 witness. -/
def oC5 : Obj :=
  [("last", Json.obj [("rating", Json.num 1200)]),
   ("highest", Json.obj [("rating", Json.num 1500)])]

/-- The two stats responses of the C5 witness. -/
def sdC5d : Obj := [("chess_daily", Json.obj oC5)]

def sdC5t : Obj := [("tactics", Json.obj oC5)]

/-- Witness for C5: chess_daily (selector "last") is insensitive to its
"highest" value, tactics (selector "highest") to its "last" value. -/
theorem spec_C5_witness :
    ratingField (setKey sdC5d "chess_daily" (Json.obj (setKey oC5 "highest" (Json.num 9999))))
        "chess_daily" "last" = ratingField sdC5d "chess_daily" "last" ∧
    ratingField (setKey sdC5t "tactics" (Json.obj (setKey oC5 "last" (Json.num 9999))))
        "tactics" "highest" = ratingField sdC5t "tactics" "highest" :=
  ⟨(spec_C5 sdC5d "chess_daily" oC5 (Json.num 9999) rfl).1 (by decide),
   (spec_C5 sdC5t "tactics" oC5 (Json.num 9999) rfl).2 (by decide)⟩

/-! ## Claim C6 -/

theorem chartEntries_ok :
    ∀ (L : List String) (m : Obj),
      (∀ t ∈ L, olookup t m = some sentinel ∨ ∃ n : Int, olookup t m = some (Json.num n)) →
      chartEntries L m = .ok (L.map fun t =>
        match olookup t m with
        | some (Json.num n) => n
        | _ => 800) := by
  intro L
  induction L with
  | nil => intro m _; rfl
  | cons t rest ih =>
    intro m h
    have hr := ih m fun x hx => h x (List.mem_cons_of_mem _ hx)
    rcases h t (List.mem_cons_self _ _) with ht | ⟨n, ht⟩
    · unfold chartEntries
      simp only [ht, sentinel, chartValue, hr, List.map_cons]
    · unfold chartEntries
      simp only [ht, chartValue, pyInt, hr, List.map_cons]

/-- C6: for a member record whose six chart fields each hold an integer
rating or the empty sentinel, the vector handed to the chart renderer is
the fixed-order six-category sequence with 800 substituted for every
sentinel and the literal integer rating otherwise. -/
theorem spec_C6 (m : Obj)
    (h : ∀ t ∈ rating_types,
      olookup t m = some sentinel ∨ ∃ n : Int, olookup t m = some (Json.num n)) :
    chartVector m = .ok (rating_types.map fun t =>
      match olookup t m with
      | some (Json.num n) => n
      | _ => 800) :=
  chartEntries_ok rating_types m h

/-- The member record of the C6 witness: three real ratings, three empty
sentinels among the six chart fields. -/
def mC6 : Obj :=
  [("chess_daily", Json.num 1200), ("chess_rapid", sentinel),
   ("chess_blitz", Json.num 900), ("chess_bullet", sentinel),
   ("chess960_daily", Json.num 700), ("tactics", Json.num 2000)]

/-- Witness for C6 at a concrete record. -/
theorem spec_C6_witness : chartVector mC6 = .ok [1200, 800, 900, 800, 700, 2000] :=
  (spec_C6 mC6 (by
    intro t ht
    fin_cases ht
    exacts [Or.inr ⟨1200, rfl⟩, Or.inl rfl, Or.inr ⟨900, rfl⟩,
      Or.inl rfl, Or.inr ⟨700, rfl⟩, Or.inr ⟨2000, rfl⟩])).trans rfl

/-! ## Claim C8 -/

/-- C8: the profile enricher stores each of name, location, status from
the corresponding top-level response value when the key is present and
the empty sentinel when it is absent; and the stage never aborts when the
fetches succeed — missing fields are not an error. -/
theorem spec_C8 :
    (∀ (u : String) (pd : Obj) (k : String),
      k ∈ (["name", "location", "status"] : List String) →
      (olookup k pd = none → olookup k (enrichProfile u pd) = some sentinel) ∧
      (∀ v, olookup k pd = some v → olookup k (enrichProfile u pd) = some v)) ∧
    (∀ (f : String → Except Unit Obj) (names : List String),
      (∀ u ∈ names, ∃ pd, f u = .ok pd) →
      ∃ recs, profileStage f names = .ok recs) := by
  refine ⟨?_, profileStage_ok⟩
  intro u pd k hk
  fin_cases hk
  · have e : olookup "name" (enrichProfile u pd) =
        some ((olookup "name" pd).getD sentinel) := rfl
    exact ⟨fun h => by rw [e, h]; rfl, fun v h => by rw [e, h]; rfl⟩
  · have e : olookup "location" (enrichProfile u pd) =
        some ((olookup "location" pd).getD sentinel) := rfl
    exact ⟨fun h => by rw [e, h]; rfl, fun v h => by rw [e, h]; rfl⟩
  · have e : olookup "status" (enrichProfile u pd) =
        some ((olookup "status" pd).getD sentinel) := rfl
    exact ⟨fun h => by rw [e, h]; rfl, fun v h => by rw [e, h]; rfl⟩

/-- The profile response of the C8 witness: location present, name and
status absent. -/
def pdC8 : Obj := [("location", Json.str "AR")]

/-- Witness for C8: an absent name yields the sentinel, a present
location is copied, and the stage completes on a two-member list. -/
theorem spec_C8_witness :
    olookup "name" (enrichProfile "alice" pdC8) = some sentinel ∧
    olookup "location" (enrichProfile "alice" pdC8) = some (Json.str "AR") ∧
    ∃ recs, profileStage (fun _ => .ok pdC8) ["alice", "bob"] = .ok recs :=
  ⟨(spec_C8.1 "alice" pdC8 "name" (by decide)).1 rfl,
   (spec_C8.1 "alice" pdC8 "location" (by decide)).2 (Json.str "AR") rfl,
   spec_C8.2 (fun _ => .ok pdC8) ["alice", "bob"] (fun u _ => ⟨pdC8, rfl⟩)⟩

/-! ## Claim C9 -/

/-- C9 counterexample: a profile response with an explicit JSON null
under a present name key makes the enricher store null in the record —
neither a proper value nor the empty sentinel, contradicting the claim
that a null for a present key never ends up mixed into a field. -/
theorem spec_C9_counterexample :
    olookup "name" (enrichProfile "alice" [("name", Json.null)]) = some Json.null ∧
    Json.null ≠ sentinel :=
  ⟨rfl, fun h => Json.noConfusion h⟩

/-- C9 (amended): after both enrichment stages, every field of the member
record is non-null — each optional attribute holds exactly one of a
proper value or the empty sentinel — provided the upstream responses
carry no explicit JSON null at any position the enrichers extract
(the three profile keys, top-level fide, and the eight nested paths). -/
theorem spec_C9 (u : String) (pd sd m' : Obj)
    (hpd : ∀ k ∈ (["name", "location", "status"] : List String),
      ∀ v, olookup k pd = some v → v ≠ Json.null)
    (hfide : ∀ v, olookup "fide" sd = some v → v ≠ Json.null)
    (hpaths : ∀ p ∈ statPaths, extractNested sd p.1 p.2 ≠ .ok Json.null)
    (hm : enrichStats sd (enrichProfile u pd) = .ok m') :
    ∀ kv ∈ m', kv.2 ≠ Json.null := by
  have hsent : sentinel ≠ Json.null := fun h => Json.noConfusion h
  have hgetD : ∀ (k : String), k ∈ (["name", "location", "status"] : List String) →
      (olookup k pd).getD sentinel ≠ Json.null := by
    intro k hk
    cases h : olookup k pd with
    | none => simpa using hsent
    | some v => simpa using hpd k hk v h
  obtain ⟨pr, rs, hpz, hrs, hshape⟩ := enrichStats_shape hm
  subst hshape
  intro kv hkv
  rcases List.mem_append.mp hkv with hkv | hkv
  · rcases List.mem_append.mp hkv with hkv | hkv
    · unfold enrichProfile at hkv
      simp only [List.mem_cons, List.not_mem_nil, or_false] at hkv
      rcases hkv with hkv | hkv | hkv | hkv
      · rw [show kv = ("username", Json.str u) from hkv]
        exact fun h => Json.noConfusion h
      · rw [show kv = ("name", (olookup "name" pd).getD sentinel) from hkv]
        exact hgetD "name" (by decide)
      · rw [show kv = ("location", (olookup "location" pd).getD sentinel) from hkv]
        exact hgetD "location" (by decide)
      · rw [show kv = ("status", (olookup "status" pd).getD sentinel) from hkv]
        exact hgetD "status" (by decide)
    · simp only [List.mem_cons, List.not_mem_nil, or_false] at hkv
      rcases hkv with hkv | hkv
      · rw [show kv = ("fide", fideField sd) from hkv]
        unfold fideField
        cases h : olookup "fide" sd with
        | none =>
          cases hb : pyEqZero ((none : Option Json).getD sentinel) <;> simp_all
        | some v =>
          simp only [Option.getD_some]
          cases hb : pyEqZero v with
          | true => simpa [hb] using hsent
          | false => simpa [hb] using hfide v h
      · rw [show kv = ("puzzle_rush", pr) from hkv]
        rcases tryKeyErr_ok hpz with hok | ⟨_, hse⟩
        · intro h
          exact hpaths ("puzzle_rush", ["best", "score"])
            (List.mem_cons_self _ _) (h ▸ hok)
        · rw [hse]; exact hsent
  · obtain ⟨sel, hsl, hrf⟩ := ratingFields_val_mem rating_lists sd rs hrs kv hkv
    unfold ratingField at hrf
    rcases tryKeyErr_ok hrf with hok | ⟨_, hse⟩
    · intro h
      refine hpaths (kv.1, [sel, "rating"]) ?_ (h ▸ hok)
      exact List.mem_cons_of_mem _ (List.mem_map_of_mem _ hsl)
    · rw [hse]; exact hsent

/-- The responses of the C9 witness: a string name, no location/status,
no fide, one fully present tactics rating. -/
def pdC9 : Obj := [("name", Json.str "Alice")]

def sdC9 : Obj := [("tactics", Json.obj [("highest", Json.obj [("rating", Json.num 2000)])])]

/-- The record the C9 witness run produces. -/
def recC9 : Obj :=
  [("username", Json.str "alice"), ("name", Json.str "Alice"), ("location", sentinel),
   ("status", sentinel), ("fide", sentinel), ("puzzle_rush", sentinel),
   ("chess_daily", sentinel), ("chess_rapid", sentinel), ("chess_blitz", sentinel),
   ("chess_bullet", sentinel), ("chess960_daily", sentinel), ("tactics", Json.num 2000),
   ("lessons", sentinel)]

/-- Witness for C9 (amended) at concrete null-free responses: the tactics
field of the produced record is non-null. -/
theorem spec_C9_witness : ("tactics", Json.num 2000).2 ≠ Json.null :=
  spec_C9 "alice" pdC9 sdC9 recC9
    (by
      intro k hk v hv
      fin_cases hk
      · rw [show olookup "name" pdC9 = some (Json.str "Alice") from rfl] at hv
        rw [show v = Json.str "Alice" from (Option.some.inj hv).symm]
        exact fun h => Json.noConfusion h
      · exact absurd hv (by rw [show olookup "location" pdC9 = none from rfl]; exact fun h => Option.noConfusion h)
      · exact absurd hv (by rw [show olookup "status" pdC9 = none from rfl]; exact fun h => Option.noConfusion h))
    (fun v hv => absurd hv (by
      rw [show olookup "fide" sdC9 = none from rfl]
      exact fun h => Option.noConfusion h))
    (by
      intro p hp
      fin_cases hp
      · exact fun h => Except.noConfusion h
      · exact fun h => Except.noConfusion h
      · exact fun h => Except.noConfusion h
      · exact fun h => Except.noConfusion h
      · exact fun h => Except.noConfusion h
      · exact fun h => Except.noConfusion h
      · exact fun h => Json.noConfusion (Except.ok.inj h)
      · exact fun h => Except.noConfusion h)
    rfl ("tactics", Json.num 2000) (by simp [recC9])

/-! ## Claim C2 -/

/-- C2: on every successful run the member records are ordered by
ascending case-sensitive lexicographic username order, fixed when the
roster list is built: the final records' usernames are exactly the sorted
username list of the roster (so both enrichment stages preserved it), the
exported rows are in that same order (username in the first cell), and
any roster listing the same username occurrences in any other bucket
arrangement yields the same sorted list. -/
theorem spec_C2 (o : FetchOracle) (roster : List (String × List Obj)) (recs : List Obj)
    (hro : o.roster = .ok roster) (hrun : runPipeline o = .ok recs) :
    ∃ raw names,
      extractUsernames roster = some raw ∧
      loadRoster roster = some names ∧
      List.Sorted strLe names ∧
      names.Perm raw ∧
      recs.map (olookup "username") = names.map (fun u => some (Json.str u)) ∧
      (exportRows recs).map List.head? = names.map (fun u => some (Json.str u)) ∧
      (∀ roster' raw', extractUsernames roster' = some raw' → raw'.Perm raw →
        loadRoster roster' = some names) := by
  obtain ⟨roster0, names, recs0, h0, h1, h2, h3⟩ := runPipeline_ok hrun
  have hrr : roster0 = roster := Except.ok.inj (h0.symm.trans hro)
  subst hrr
  obtain ⟨raw, hraw, hsort⟩ := Option.map_eq_some'.mp h1
  refine ⟨raw, names, hraw, h1, ?_, ?_, ?_, ?_, ?_⟩
  · rw [← hsort]
    exact List.sorted_insertionSort strLe raw
  · rw [← hsort]
    exact List.perm_insertionSort strLe raw
  · rw [statsStage_usernames o.stats recs0 recs h3,
      profileStage_usernames o.profile names recs0 h2]
  · have hhead : ∀ m : Obj,
        (export_columns.map fun c => (olookup c m).getD Json.null).head? =
          some ((olookup "username" m).getD Json.null) := fun m => rfl
    have husers := statsStage_usernames o.stats recs0 recs h3
    rw [profileStage_usernames o.profile names recs0 h2] at husers
    unfold exportRows
    rw [List.map_map]
    have : (List.head? ∘ fun m : Obj =>
        export_columns.map fun c => (olookup c m).getD Json.null) =
        (fun ov : Option Json => some (ov.getD Json.null)) ∘ (olookup "username") := by
      funext m
      exact hhead m
    rw [this, ← List.map_map, husers, List.map_map]
    rfl
  · intro roster' raw' he hperm
    unfold loadRoster
    rw [he]
    have hp : List.Perm (List.insertionSort strLe raw') (List.insertionSort strLe raw) :=
      (List.perm_insertionSort strLe raw').trans
        (hperm.trans (List.perm_insertionSort strLe raw).symm)
    rw [Option.map_some']
    rw [List.eq_of_perm_of_sorted hp (List.sorted_insertionSort strLe raw')
      (List.sorted_insertionSort strLe raw), hsort]

/-- The roster of the C2 witness: bob listed in an earlier bucket than
alice, so the bucket order disagrees with the sorted order. -/
def rosterC2 : List (String × List Obj) :=
  [("weekly", [[("username", Json.str "bob")]]),
   ("all_time", [[("username", Json.str "alice")]])]

/-- The oracle of the C2 witness: all fetches succeed, the per-member
responses are empty objects. -/
def oC2 : FetchOracle :=
  { roster := .ok rosterC2, profile := fun _ => .ok [], stats := fun _ => .ok [] }

/-- The fully enriched record of a member with empty profile and stats
responses. -/
def recC2 (u : String) : Obj :=
  [("username", Json.str u), ("name", sentinel), ("location", sentinel), ("status", sentinel),
   ("fide", sentinel), ("puzzle_rush", sentinel),
   ("chess_daily", sentinel), ("chess_rapid", sentinel), ("chess_blitz", sentinel),
   ("chess_bullet", sentinel), ("chess960_daily", sentinel), ("tactics", sentinel),
   ("lessons", sentinel)]

/-- Witness for C2 at a concrete two-member run whose bucket order is the
reverse of the sorted order. -/
theorem spec_C2_witness :
    ∃ raw names,
      extractUsernames rosterC2 = some raw ∧
      loadRoster rosterC2 = some names ∧
      List.Sorted strLe names ∧
      names.Perm raw ∧
      ([recC2 "alice", recC2 "bob"].map (olookup "username")) =
        names.map (fun u => some (Json.str u)) ∧
      (exportRows [recC2 "alice", recC2 "bob"]).map List.head? =
        names.map (fun u => some (Json.str u)) ∧
      (∀ roster' raw', extractUsernames roster' = some raw' → raw'.Perm raw →
        loadRoster roster' = some names) :=
  spec_C2 oC2 rosterC2 [recC2 "alice", recC2 "bob"] rfl rfl

/-! ## Claim C7 -/

/-- C7: when the roster fetch fails, or any member's profile or stats
fetch fails at transport level, the run never reaches the export (it has
no successful result, so no report — partial or complete — is written);
and an enrichment loop calls the fetch once per member in order up to and
including the first failure (the call sequence is a take-prefix of the
member list: no retry). -/
theorem spec_C7 (o : FetchOracle)
    (h : o.roster = .error () ∨
      ∃ roster names, o.roster = .ok roster ∧ loadRoster roster = some names ∧
        ∃ u ∈ names, o.profile u = .error () ∨ o.stats u = .error ()) :
    (∀ recs, runPipeline o ≠ .ok recs) ∧
    (∀ (f : String → Except Unit Obj) (us : List String),
      ∃ n, stageCalls f us = us.take n) := by
  constructor
  · intro recs hrec
    obtain ⟨roster0, names0, recs0, h0, h1, h2, h3⟩ := runPipeline_ok hrec
    rcases h with h | ⟨roster, names, hro, hnames, u, hu, hf⟩
    · rw [h] at h0
      exact Except.noConfusion h0
    · have hrr : roster0 = roster := Except.ok.inj (h0.symm.trans hro)
      subst hrr
      have hnn : names0 = names := Option.some.inj (h1.symm.trans hnames)
      subst hnn
      rcases hf with hf | hf
      · obtain ⟨pd, hpd⟩ := profileStage_fetch_ok o.profile names0 recs0 h2 u hu
        rw [hf] at hpd
        exact Except.noConfusion hpd
      · have hmap := profileStage_usernames o.profile names0 recs0 h2
        have hmem : some (Json.str u) ∈ recs0.map (olookup "username") := by
          rw [hmap]
          exact List.mem_map_of_mem _ hu
        obtain ⟨m, hm, hmu⟩ := List.mem_map.mp hmem
        obtain ⟨sd, hsd⟩ := statsStage_fetch_ok o.stats recs0 recs h3 m hm u hmu
        rw [hf] at hsd
        exact Except.noConfusion hsd
  · intro f us
    induction us with
    | nil => exact ⟨0, rfl⟩
    | cons u rest ih =>
      cases hf : f u with
      | error e => exact ⟨1, by simp [stageCalls, hf]⟩
      | ok pd =>
        obtain ⟨n, hn⟩ := ih
        exact ⟨n + 1, by simp [stageCalls, hf, List.take_succ_cons, hn]⟩

/-- The roster of the C7 witness: three members, unsorted in the bucket. -/
def rosterC7 : List (String × List Obj) :=
  [("weekly", [[("username", Json.str "c")], [("username", Json.str "a")],
    [("username", Json.str "b")]])]

/-- The oracle of the C7 witness: the profile fetch of the third member
(in sorted order) fails at transport level. -/
def oC7 : FetchOracle :=
  { roster := .ok rosterC7,
    profile := fun u => if u = "c" then .error () else .ok [],
    stats := fun _ => .ok [] }

/-- Witness for C7: the concrete run whose third profile fetch fails
produces no report, and call sequences are take-prefixes. -/
theorem spec_C7_witness :
    (∀ recs, runPipeline oC7 ≠ .ok recs) ∧
    (∀ (f : String → Except Unit Obj) (us : List String),
      ∃ n, stageCalls f us = us.take n) :=
  spec_C7 oC7 (Or.inr ⟨rosterC7, ["a", "b", "c"], rfl, rfl, "c", by decide, Or.inl rfl⟩)

/-! ## Claim C10 -/

/-- The oracle of the C10 run: the stats response holds a present but
non-mapping tactics value. -/
def oC10 : FetchOracle :=
  { roster := .ok [("weekly", [[("username", Json.str "zed")]])],
    profile := fun _ => .ok [],
    stats := fun _ => .ok [("tactics", Json.num 5)] }

/-- C10: a path segment that is present but not a mapping is not handled
by the KeyError handler: on the stats response with tactics equal to 5
the enricher raises TypeError instead of storing the sentinel and the
whole run dies with that unhandled error; and the extraction is total
when every present segment of every read path is a mapping. -/
theorem spec_C10 :
    enrichStats [("tactics", Json.num 5)] [] = .error .typeError ∧
    runPipeline oC10 = .error (RunError.pyError PyErr.typeError) ∧
    ∀ sd m, (∀ p ∈ statPaths, pathTotal sd p.1 p.2 = true) →
      ∃ m', enrichStats sd m = .ok m' := by
  refine ⟨rfl, rfl, ?_⟩
  intro sd m h
  obtain ⟨pr, hpr⟩ :=
    statFieldValue_total (h ("puzzle_rush", ["best", "score"]) (List.mem_cons_self _ _))
  obtain ⟨rs, hrs⟩ := ratingFields_total rating_lists sd fun ts hts =>
    h (ts.1, [ts.2, "rating"]) (List.mem_cons_of_mem _ (List.mem_map_of_mem _ hts))
  refine ⟨m ++ [("fide", fideField sd), ("puzzle_rush", pr)] ++ rs, ?_⟩
  unfold enrichStats
  rw [hpr, hrs]

/-- Witness for C10's totality direction at a concrete stats response
whose present path segments are all mappings. -/
theorem spec_C10_witness :
    ∃ m', enrichStats
      [("tactics", Json.obj [("highest", Json.obj [("rating", Json.num 7)])])] [] = .ok m' :=
  spec_C10.2.2 [("tactics", Json.obj [("highest", Json.obj [("rating", Json.num 7)])])] []
    (by decide)
